import Mathlib

/-!
Shallow embedding of the panel-firmware input-sensing core
(`src/button.rs` and `src/debouncer.rs`).

The constructors of both components perform `f32` arithmetic
(`(debounce_time_ms as f32 / 1000.0) * sample_frequency as f32` and
`timer.frequency().0 as f32 * (long_press_timeout_ms as f32 / 1000.0)`).
We model IEEE-754 single precision exactly over ℚ: every value arising in
those expressions is in the normal range, and every `f32` operation is
correctly rounded (round to nearest, ties to even), so one rounding
function `f32round` composed around exact rational arithmetic is a
faithful model.  Rust's `as u8` / `as u32` casts from `f32` truncate
toward zero and saturate at the integer type's bounds.

Machine integers (`u8` fields of the debouncer, `u32` tick values) are
modelled as ℕ; the only places overflow or wrapping matter are the
saturating integrator updates (explicit in the code) and the wrapping
monotonic `Instant` subtraction, modelled with `% 2 ^ 32`.
-/

namespace Panel

/-- Round a rational to the nearest integer, ties to even
(the IEEE-754 default rounding of a significand). -/
def rne (q : ℚ) : ℤ :=
  let f := ⌊q⌋
  if q - f < 1 / 2 then f
  else if 1 / 2 < q - f then f + 1
  else if 2 ∣ f then f else f + 1

/-- Round a nonnegative rational to the nearest `f32` value
(24-bit significand, round to nearest, ties to even).  All values in this
development lie well inside the normal finite range of `f32`, so neither
subnormals nor overflow to infinity need to be modelled. -/
def f32round (q : ℚ) : ℚ :=
  if q ≤ 0 then 0
  else
    let e : ℤ := Int.log 2 q - 23
    (rne (q * 2 ^ (-e)) : ℚ) * 2 ^ e

/-- Rust's saturating-truncating cast `as u8` from `f32`, on the model. -/
def toU8 (q : ℚ) : ℕ :=
  (min 255 ⌊q⌋).toNat

/-- Rust's saturating-truncating cast `as u32` from `f32`, on the model. -/
def toU32 (q : ℚ) : ℕ :=
  (min 4294967295 ⌊q⌋).toNat

/-- Polarity of the input pin (`Active` in both `button.rs` and
`debouncer.rs`). -/
inductive Active
  | Low
  | High
deriving DecidableEq

/-- Debouncer state.  Both `button.rs` and `debouncer.rs` declare this
structure identically (`pin` itself is external; a raw sample is instead
fed to each step function as a `Bool` argument `pinLow`, the value of
`pin.is_low()`). `integrator` and `max` are `u8` in the source; they are
modelled as ℕ (the code never lets `integrator` exceed `max ≤ 255`, see
`Debouncer.poll_integrator_le`). -/
structure Debouncer where
  integrator : ℕ
  max : ℕ
  output : Bool
  active_mode : Active
deriving DecidableEq

/-- Constructor `Debouncer::new` — identical in `button.rs` (lines 96-110) and
`debouncer.rs` (lines 18-32):
`max = ((debounce_time_ms as f32 / 1000.0) * sample_frequency as f32) as u8`,
integrator starts at `max` for active-low and `0` for active-high,
output starts `true` for active-low and `false` for active-high. -/
def Debouncer.new (active_mode : Active) (debounce_time_ms sample_frequency : ℕ) : Debouncer :=
  let max := toU8 (f32round (f32round (f32round debounce_time_ms / 1000) * f32round sample_frequency))
  { integrator :=
      match active_mode with
      | .Low => max
      | .High => 0
    max := max
    output :=
      match active_mode with
      | .Low => true
      | .High => false
    active_mode := active_mode }

/-- Step function `Debouncer::poll` from `button.rs` (lines 112-124): saturating
decrement on a low raw sample, guarded increment otherwise, then the
output update (`output = false` when the integrator is 0, `output = true`
when it has reached `max`). -/
def Debouncer.poll (d : Debouncer) (pinLow : Bool) : Debouncer :=
  let integrator :=
    if pinLow then d.integrator - 1
    else if d.integrator < d.max then d.integrator + 1
    else d.integrator
  let output :=
    if integrator = 0 then false
    else if d.max ≤ integrator then true
    else d.output
  { d with integrator := integrator, output := output }

/-- Step function `Debouncer::update` from `debouncer.rs` (lines 34-49): the decrement
is guarded by `integrator > 0` instead of using `saturating_sub`, and the
`integrator >= max` output branch re-clamps `integrator` to `max`. -/
def Debouncer.update (d : Debouncer) (pinLow : Bool) : Debouncer :=
  let integrator :=
    if pinLow then (if 0 < d.integrator then d.integrator - 1 else d.integrator)
    else if d.integrator < d.max then d.integrator + 1
    else d.integrator
  if integrator = 0 then { d with integrator := integrator, output := false }
  else if d.max ≤ integrator then { d with integrator := d.max, output := true }
  else { d with integrator := integrator }

/-- Projection `Debouncer::is_pressed` — identical in both files: maps
`(active_mode, output)` to the logical pressed value. -/
def Debouncer.is_pressed (d : Debouncer) : Bool :=
  match d.active_mode, d.output with
  | .High, true => true
  | .Low, false => true
  | _, _ => false

/-- The events of `button.rs` (`ButtonEvent`). -/
inductive ButtonEvent
  | Pressed
  | ShortRelease
  | LongPress
  | LongRelease
deriving DecidableEq

/-- The state of the button machine (`ButtonState` in `button.rs`); an
`Instant` is a `u32` tick value of the wrapping monotonic counter. -/
inductive ButtonState
  | Released
  | PressedAt (t0 : ℕ)
  | LongPressed
deriving DecidableEq

/-- The modulus of the `u32` monotonic tick counter. -/
def instantModulus : ℕ := 2 ^ 32

/-- Modelled from the spec: `Instant::elapsed` of the HAL's `MonoTimer`
(the monotonic time source consumed, not owned, by the core — its code is
not part of this repository).  Per the spec it is the wrapping (modular
`2 ^ 32`) subtraction `now - t0` of the free-running `u32` tick
counter. -/
def elapsed (now t0 : ℕ) : ℕ :=
  (now % instantModulus + instantModulus - t0 % instantModulus) % instantModulus

/-- The button (`Button` in `button.rs`).  The `timer : MonoTimer` field
is the external time source; its `now()` reading is passed to `poll` as
an argument, and its frequency only enters through
`long_press_timeout_ticks` at construction. -/
structure Button where
  pin : Debouncer
  button_state : ButtonState
  long_press_timeout_ticks : ℕ
deriving DecidableEq

/-- Constructor `Button::new` (lines 35-41 of `button.rs`):
`long_press_timeout_ticks =
  (timer.frequency().0 as f32 * (long_press_timeout_ms as f32 / 1000.0)) as u32`,
initial state `Released`. -/
def Button.new (pin : Debouncer) (long_press_timeout_ms frequency_hz : ℕ) : Button :=
  { pin := pin
    button_state := .Released
    long_press_timeout_ticks :=
      toU32 (f32round (f32round frequency_hz * f32round (f32round long_press_timeout_ms / 1000))) }

/-- Poll function `Button::poll` (lines 47-77 of `button.rs`): poll the debouncer once
with the fresh raw sample, then run the state machine against the new
debounced value.  `now` is the tick value `timer.now()` would read. -/
def Button.poll (b : Button) (pinLow : Bool) (now : ℕ) : Button × Option ButtonEvent :=
  let pin := b.pin.poll pinLow
  match b.button_state with
  | .Released =>
      if pin.is_pressed then
        ({ b with pin := pin, button_state := .PressedAt now }, some .Pressed)
      else
        ({ b with pin := pin }, none)
  | .PressedAt t0 =>
      if ¬ pin.is_pressed then
        ({ b with pin := pin, button_state := .Released }, some .ShortRelease)
      else if b.long_press_timeout_ticks < elapsed now t0 then
        ({ b with pin := pin, button_state := .LongPressed }, some .LongPress)
      else
        ({ b with pin := pin }, none)
  | .LongPressed =>
      if ¬ pin.is_pressed then
        ({ b with pin := pin, button_state := .Released }, some .LongRelease)
      else
        ({ b with pin := pin }, none)

/-- Run a sequence of `Button::poll` calls; each input is a raw sample
(`pin.is_low()` value) paired with the tick the timer reads at that poll.
Returns the final button and the event result of every call in order. -/
def Button.run (b : Button) (inputs : List (Bool × ℕ)) : Button × List (Option ButtonEvent) :=
  match inputs with
  | [] => (b, [])
  | (raw, now) :: rest =>
      let step := b.poll raw now
      let tail := step.1.run rest
      (tail.1, step.2 :: tail.2)

/-- The transition table of spec §4.2, written row by row in the spec's
order of evaluation (release is checked before the timeout), as a
function of the freshly debounced value `p`. -/
def buttonSpecStep (p : Bool) (now timeout : ℕ) : ButtonState → ButtonState × Option ButtonEvent
  | .Released =>
      if p then (.PressedAt now, some .Pressed) else (.Released, none)
  | .PressedAt t0 =>
      if ¬ p then (.Released, some .ShortRelease)
      else if timeout < elapsed now t0 then (.LongPressed, some .LongPress)
      else (.PressedAt t0, none)
  | .LongPressed =>
      if ¬ p then (.Released, some .LongRelease) else (.LongPressed, none)

/-- Spec §8 Scenario C, as an event trace: while the debounced signal
stays active from state `Pressed(t0)`, one `LongPress` is emitted at the
first poll whose elapsed time exceeds the timeout, and nothing is emitted
at any other poll. -/
def longPressPattern (timeout t0 : ℕ) : List ℕ → List (Option ButtonEvent)
  | [] => []
  | now :: rest =>
      if timeout < elapsed now t0 then
        some .LongPress :: rest.map (fun _ => none)
      else
        none :: longPressPattern timeout t0 rest

/-- The spec's reading of a raw sample relative to polarity (§3,
glossary): for an active-low pin the electrically low level is the active
level, for an active-high pin it is the inactive level.  `pinLow` is the
raw `pin.is_low()` sample. -/
def rawIndicatesInactive (mode : Active) (pinLow : Bool) : Bool :=
  match mode with
  | .Low => ¬ pinLow
  | .High => pinLow

/-- The raw sample value (`pin.is_low()`) that a sustained inactive input
produces for each polarity. -/
def inactiveRawLow (mode : Active) : Bool :=
  match mode with
  | .Low => false
  | .High => true

theorem rne_intCast (z : ℤ) : rne (z : ℚ) = z := by
  simp [rne]

theorem f32round_zero : f32round 0 = 0 := by
  simp [f32round]

theorem f32round_exact (m j : ℕ) (hm : 0 < m) (hlt : m < 2 ^ 24) :
    f32round ((m : ℚ) * 2 ^ j) = (m : ℚ) * 2 ^ j := by
  have hq : (0 : ℚ) < (m : ℚ) * 2 ^ j := by positivity
  have hnot : ¬ ((m : ℚ) * 2 ^ j ≤ 0) := not_le.mpr hq
  simp only [f32round]
  rw [if_neg hnot]
  set L : ℤ := Int.log 2 ((m : ℚ) * 2 ^ j) with hLdef
  have hub : L < (j : ℤ) + 24 := by
    by_contra hcon
    push_neg at hcon
    have h1 : ((2 : ℚ)) ^ ((j : ℤ) + 24) ≤ (2 : ℚ) ^ L :=
      zpow_le_zpow_right₀ (by norm_num) hcon
    have h2' : (2 : ℚ) ^ L ≤ (m : ℚ) * 2 ^ j := by
      have h2 := Int.zpow_log_le_self (R := ℚ) (b := 2) (by norm_num) hq
      rw [← hLdef] at h2
      simpa using h2
    have h3 : (m : ℚ) * 2 ^ j < (2 : ℚ) ^ ((j : ℤ) + 24) := by
      have hm24 : (m : ℚ) < 2 ^ 24 := by exact_mod_cast hlt
      have he : ((j : ℤ) + 24) = ((j + 24 : ℕ) : ℤ) := by push_cast; ring
      rw [he, zpow_natCast, pow_add]
      have hp : (0 : ℚ) < 2 ^ j := by positivity
      calc (m : ℚ) * 2 ^ j < 2 ^ 24 * 2 ^ j := mul_lt_mul_of_pos_right hm24 hp
        _ = 2 ^ j * 2 ^ 24 := by ring
    exact absurd (h1.trans h2') (not_le.mpr h3)
  set k : ℕ := ((j : ℤ) + 23 - L).toNat with hkdef
  have hk : (k : ℤ) = (j : ℤ) + 23 - L := Int.toNat_of_nonneg (by omega)
  have hpow : (2 : ℚ) ^ (j : ℕ) * (2 : ℚ) ^ (-(L - 23)) = (2 : ℚ) ^ (k : ℕ) := by
    rw [← zpow_natCast (2 : ℚ) k, ← zpow_natCast (2 : ℚ) j,
      ← zpow_add₀ (by norm_num : (2 : ℚ) ≠ 0)]
    congr 1
    omega
  have harg : (m : ℚ) * 2 ^ j * 2 ^ (-(L - 23)) = ((m * 2 ^ k : ℕ) : ℚ) := by
    push_cast
    rw [mul_assoc, hpow]
  rw [harg]
  have hrne : (rne (((m * 2 ^ k : ℕ) : ℚ)) : ℚ) = ((m * 2 ^ k : ℕ) : ℚ) := by
    rw [show ((m * 2 ^ k : ℕ) : ℚ) = (((m * 2 ^ k : ℕ) : ℤ) : ℚ) by push_cast; ring,
      rne_intCast]
  rw [hrne]
  push_cast
  rw [mul_assoc, ← zpow_natCast (2 : ℚ) k, ← zpow_natCast (2 : ℚ) j,
    ← zpow_add₀ (by norm_num : (2 : ℚ) ≠ 0)]
  have hexp : (k : ℤ) + (L - 23) = (j : ℤ) := by omega
  rw [hexp]

theorem f32round_natCast (n : ℕ) (h0 : 0 < n) (h : n < 2 ^ 24) :
    f32round (n : ℚ) = n := by
  have := f32round_exact n 0 h0 h
  simpa using this



theorem toU8_natCast (n : ℕ) (h : n ≤ 255) : toU8 (n : ℚ) = n := by
  rw [toU8, Int.floor_natCast]
  omega

theorem toU32_natCast (n : ℕ) (h : n ≤ 4294967295) : toU32 (n : ℚ) = n := by
  rw [toU32, Int.floor_natCast]
  omega

theorem f32round_33554433 : f32round (33554433 : ℚ) = 33554432 := by
  have hlog : Int.log 2 (33554433 : ℚ) = 25 := by
    have h1 : ((33554433 : ℕ) : ℚ) = (33554433 : ℚ) := by norm_num
    rw [← h1, Int.log_natCast]
    have h2 : Nat.log 2 33554433 = 25 :=
      Nat.log_eq_of_pow_le_of_lt_pow (by norm_num) (by norm_num)
    exact_mod_cast h2
  have hnot : ¬ ((33554433 : ℚ) ≤ 0) := by norm_num
  simp only [f32round]
  rw [if_neg hnot, hlog]
  have he : (25 : ℤ) - 23 = 2 := by norm_num
  rw [he]
  have harg : (33554433 : ℚ) * 2 ^ (-(2 : ℤ)) = 33554433 / 4 := by
    rw [zpow_neg]
    norm_num
  rw [harg]
  have hfloor : ⌊(33554433 : ℚ) / 4⌋ = 8388608 := by
    rw [Int.floor_eq_iff]
    constructor <;> norm_num
  have hrne : rne ((33554433 : ℚ) / 4) = 8388608 := by
    simp only [rne, hfloor]
    norm_num
  rw [hrne]
  norm_num



theorem f32_pipeline (tm sf : ℕ) (hdvd : 1000 ∣ tm) (htm : tm < 2 ^ 24)
    (hp : tm / 1000 * sf < 2 ^ 24) :
    f32round (f32round (f32round (tm : ℚ) / 1000) * f32round (sf : ℚ))
      = ((tm / 1000 * sf : ℕ) : ℚ) := by
  obtain ⟨t, rfl⟩ := hdvd
  rw [Nat.mul_div_cancel_left t (by norm_num : 0 < 1000)] at hp ⊢
  rcases Nat.eq_zero_or_pos t with ht0 | htpos
  · subst ht0
    simp [f32round_zero]
  rcases Nat.eq_zero_or_pos sf with hsf0 | hsfpos
  · subst hsf0
    simp [f32round_zero]
  have htm' : 0 < 1000 * t := by positivity
  have h1 : f32round ((1000 * t : ℕ) : ℚ) = ((1000 * t : ℕ) : ℚ) :=
    f32round_natCast _ htm' htm
  have h2 : ((1000 * t : ℕ) : ℚ) / 1000 = ((t : ℕ) : ℚ) := by
    push_cast
    ring
  have h3 : f32round ((t : ℕ) : ℚ) = ((t : ℕ) : ℚ) :=
    f32round_natCast _ htpos (lt_of_le_of_lt (Nat.le_mul_of_pos_right t hsfpos) hp)
  have h4 : f32round ((sf : ℕ) : ℚ) = ((sf : ℕ) : ℚ) :=
    f32round_natCast _ hsfpos (lt_of_le_of_lt (Nat.le_mul_of_pos_left sf htpos) hp)
  have h5 : ((t : ℕ) : ℚ) * ((sf : ℕ) : ℚ) = ((t * sf : ℕ) : ℚ) := by
    push_cast
    ring
  rw [h1, h2, h3, h4, h5, f32round_natCast _ (by positivity) hp]



theorem Debouncer_new_zero_window (mode : Active) (sf : ℕ) :
    (Debouncer.new mode 0 sf).max = 0 := by
  simp [Debouncer.new, f32round_zero, toU8]

theorem Button_new_zero_timeout (pin : Debouncer) (freq : ℕ) :
    (Button.new pin 0 freq).long_press_timeout_ticks = 0 := by
  simp [Button.new, f32round_zero, toU32]

theorem Debouncer_new_max_eval (mode : Active) (tm sf : ℕ) (hdvd : 1000 ∣ tm)
    (htm : tm < 2 ^ 24) (hp : tm / 1000 * sf ≤ 255) :
    (Debouncer.new mode tm sf).max = tm / 1000 * sf := by
  simp only [Debouncer.new]
  have hp24 : tm / 1000 * sf < 2 ^ 24 := lt_of_le_of_lt hp (by norm_num)
  rw [f32_pipeline tm sf hdvd htm hp24, toU8_natCast _ hp]

theorem Button_new_ticks_eval (pin : Debouncer) (tm freq : ℕ) (hdvd : 1000 ∣ tm)
    (htm : tm < 2 ^ 24) (hp : tm / 1000 * freq < 2 ^ 24) :
    (Button.new pin tm freq).long_press_timeout_ticks = tm * freq / 1000 := by
  simp only [Button.new]
  rw [mul_comm (f32round ((freq : ℕ) : ℚ)), f32_pipeline tm freq hdvd htm hp,
    toU32_natCast _ (le_trans hp.le (by norm_num))]
  obtain ⟨t, rfl⟩ := hdvd
  rw [Nat.mul_div_cancel_left t (by norm_num : 0 < 1000)]
  have h : 1000 * t * freq = 1000 * (t * freq) := by ring
  rw [h, Nat.mul_div_cancel_left _ (by norm_num : 0 < 1000)]

theorem Button_new_ticks_33554433 (pin : Debouncer) :
    (Button.new pin 1000 33554433).long_press_timeout_ticks = 33554432 := by
  simp only [Button.new, Nat.cast_ofNat]
  have e1 : f32round (1000 : ℚ) = 1000 := by
    have h := f32round_natCast 1000 (by norm_num) (by norm_num)
    norm_num at h
    exact h
  have e2 : (1000 : ℚ) / 1000 = 1 := by norm_num
  have e3 : f32round (1 : ℚ) = 1 := by
    have h := f32round_natCast 1 (by norm_num) (by norm_num)
    norm_num at h
    exact h
  have e6 : f32round (33554432 : ℚ) = 33554432 := by
    have h := f32round_exact 1 25 (by norm_num) (by norm_num)
    norm_num at h
    exact h
  have e7 : toU32 (33554432 : ℚ) = 33554432 := by
    have h := toU32_natCast 33554432 (by norm_num)
    norm_num at h
    exact h
  rw [e1, e2, e3, f32round_33554433, mul_one, e6, e7]

theorem Debouncer.poll_max_eq (d : Debouncer) (pinLow : Bool) :
    (d.poll pinLow).max = d.max := rfl

theorem Debouncer.poll_active_mode_eq (d : Debouncer) (pinLow : Bool) :
    (d.poll pinLow).active_mode = d.active_mode := rfl

theorem Debouncer.poll_integrator_eq (d : Debouncer) (pinLow : Bool) :
    (d.poll pinLow).integrator =
      if pinLow then d.integrator - 1
      else if d.integrator < d.max then d.integrator + 1 else d.integrator := rfl

theorem Debouncer.poll_output_eq (d : Debouncer) (pinLow : Bool) :
    (d.poll pinLow).output =
      if (d.poll pinLow).integrator = 0 then false
      else if d.max ≤ (d.poll pinLow).integrator then true
      else d.output := rfl

theorem Debouncer.poll_integrator_le (d : Debouncer) (pinLow : Bool)
    (h : d.integrator ≤ d.max) :
    (d.poll pinLow).integrator ≤ (d.poll pinLow).max := by
  rw [Debouncer.poll_max_eq, Debouncer.poll_integrator_eq]
  split_ifs <;> omega

theorem Debouncer.foldl_poll_integrator_le (samples : List Bool) (d : Debouncer)
    (h : d.integrator ≤ d.max) :
    (samples.foldl Debouncer.poll d).integrator ≤ (samples.foldl Debouncer.poll d).max := by
  induction samples generalizing d with
  | nil => exact h
  | cons raw rest ih => exact ih _ (d.poll_integrator_le raw h)

theorem Debouncer.new_integrator_le (mode : Active) (tm sf : ℕ) :
    (Debouncer.new mode tm sf).integrator ≤ (Debouncer.new mode tm sf).max := by
  cases mode <;> simp [Debouncer.new]

/-- C2: for every debouncer built by `Debouncer::new` (either polarity) and
every sequence of raw pin samples, `0 ≤ integrator ≤ max` holds after every
`poll` call (quantifying over all sample lists covers every prefix of a
run; the lower bound is trivial in the ℕ model, mirroring that the `u8`
arithmetic of the code saturates at 0 and never wraps). -/
theorem debouncer_integrator_invariant (mode : Active) (tm sf : ℕ) (samples : List Bool) :
    0 ≤ (samples.foldl Debouncer.poll (Debouncer.new mode tm sf)).integrator ∧
    (samples.foldl Debouncer.poll (Debouncer.new mode tm sf)).integrator ≤
      (samples.foldl Debouncer.poll (Debouncer.new mode tm sf)).max :=
  ⟨Nat.zero_le _, Debouncer.foldl_poll_integrator_le samples _ (Debouncer.new_integrator_le mode tm sf)⟩

theorem Debouncer.update_eq_poll (d : Debouncer) (pinLow : Bool) (h : d.integrator ≤ d.max) :
    d.update pinLow = d.poll pinLow := by
  cases d with
  | mk i m o a =>
    cases pinLow <;> simp only [Debouncer.update, Debouncer.poll] <;>
      split_ifs <;> simp_all <;> omega

theorem Debouncer.foldl_update_eq_foldl_poll (samples : List Bool) (d : Debouncer)
    (h : d.integrator ≤ d.max) :
    samples.foldl Debouncer.update d = samples.foldl Debouncer.poll d := by
  induction samples generalizing d with
  | nil => rfl
  | cons raw rest ih =>
    simp only [List.foldl_cons, d.update_eq_poll raw h]
    exact ih _ (d.poll_integrator_le raw h)

/-- C10: the standalone debouncer of `debouncer.rs` (step function
`update`) and the copy embedded in `button.rs` (step function `poll`) are
observationally equivalent: started from the same constructor arguments
(their constructors are textually identical, hence one `Debouncer.new`)
and fed the same raw sample sequence, they are equal as states after every
step — so in particular `integrator`, `output` and `is_pressed()` agree
throughout.  The two step functions differ only on states with
`integrator > max`, and no such state is reachable from a constructor. -/
theorem debouncer_implementations_equivalent (mode : Active) (tm sf : ℕ) (samples : List Bool) :
    samples.foldl Debouncer.update (Debouncer.new mode tm sf)
      = samples.foldl Debouncer.poll (Debouncer.new mode tm sf) :=
  Debouncer.foldl_update_eq_foldl_poll samples _ (Debouncer.new_integrator_le mode tm sf)

/-- C5 counterexample: the code decrements the integrator when the raw
reading is electrically low, regardless of polarity.  For an `Active::Low`
pin the electrically high reading is the inactive level, yet `poll` on the
in-range state `integrator = 1, max = 2` with a high raw sample increments
the integrator to 2 instead of decrementing it to 0 as the claim states. -/
theorem debouncer_poll_polarity_counterexample :
    rawIndicatesInactive .Low false = true ∧
    (Debouncer.poll ⟨1, 2, false, .Low⟩ false).integrator = 2 ∧
    (Debouncer.poll ⟨1, 2, false, .Low⟩ false).integrator ≠ 1 - 1 := by
  decide

/-- C5 amended: one `Debouncer::poll` step on any state with
`integrator ≤ max`: if the raw reading is electrically low (which is the
inactive level only for the `Active::High` polarity) the integrator is
decremented by 1 saturating at 0, otherwise incremented by 1 saturating at
`max`; afterwards `output` is set to `false` exactly when the new
integrator is 0, to `true` exactly when it is nonzero and has reached
`max`, and is left unchanged in every other case; `max` never changes. -/
theorem debouncer_poll_step_amended (d : Debouncer) (pinLow : Bool)
    (h : d.integrator ≤ d.max) :
    (d.poll pinLow).integrator =
        (if pinLow then d.integrator - 1 else min (d.integrator + 1) d.max) ∧
    (d.poll pinLow).output =
        (if (if pinLow then d.integrator - 1 else min (d.integrator + 1) d.max) = 0 then false
         else if d.max ≤ (if pinLow then d.integrator - 1 else min (d.integrator + 1) d.max)
         then true else d.output) ∧
    (d.poll pinLow).max = d.max := by
  refine ⟨?_, ?_, Debouncer.poll_max_eq d pinLow⟩
  · rw [Debouncer.poll_integrator_eq]
    split_ifs <;> omega
  · rw [Debouncer.poll_output_eq, Debouncer.poll_integrator_eq]
    cases pinLow <;> simp only [Bool.false_eq_true, if_false, if_true] <;> split_ifs <;>
      simp_all <;> omega

/-- C5 witness: a concrete in-range state stepped with a high raw sample. -/
theorem debouncer_poll_step_amended_witness :
    (Debouncer.poll ⟨1, 2, false, .High⟩ false).integrator = 2 := by
  have h := (debouncer_poll_step_amended ⟨1, 2, false, .High⟩ false (by decide)).1
  simpa using h

/-- C1: a single `Button::poll` call performs exactly the transition of
the spec's §4.2 state table, evaluated against the freshly debounced
value, and returns exactly the event of the matching row (at most one
event, as an `Option`): the release check of the `Pressed` row is
evaluated before the timeout check, so a release wins a tie. -/
theorem button_poll_follows_spec_table (b : Button) (pinLow : Bool) (now : ℕ) :
    b.poll pinLow now =
      ({ b with
          pin := b.pin.poll pinLow
          button_state :=
            (buttonSpecStep (b.pin.poll pinLow).is_pressed now b.long_press_timeout_ticks
              b.button_state).1 },
        (buttonSpecStep (b.pin.poll pinLow).is_pressed now b.long_press_timeout_ticks
          b.button_state).2) := by
  cases b with
  | mk pin st timeout =>
    cases st <;> cases hp : (pin.poll pinLow).is_pressed <;>
      simp [Button.poll, buttonSpecStep, hp] <;> split <;> simp

theorem Button.run_longPressed_absorb (d : Debouncer) (raw : Bool) (timeout : ℕ)
    (hd : d.poll raw = d) (hp : d.is_pressed = true) (nows : List ℕ) :
    (Button.mk d .LongPressed timeout).run (nows.map fun n => (raw, n))
      = (Button.mk d .LongPressed timeout, nows.map fun _ => none) := by
  induction nows with
  | nil => rfl
  | cons n rest ih =>
    simp only [List.map_cons, Button.run, Button.poll, hd, hp]
    simp [ih]

/-- C4: exactly-once long-press emission.  With the debouncer held in a
pressed fixed point (so the debounced signal stays active across the run),
a run of `Button::poll` calls from state `Pressed(t0)` emits `LongPress`
exactly at the first poll whose elapsed tick count exceeds the timeout and
emits nothing at every other poll of the run (so at most one `LongPress`
in total, never repeated while held); and from `LongPressed`, the first
poll whose fresh debounced value is inactive emits exactly one
`LongRelease` and returns to `Released`. -/
theorem button_longPress_exactly_once (d : Debouncer) (raw : Bool) (timeout : ℕ)
    (hd : d.poll raw = d) (hp : d.is_pressed = true) :
    (∀ (t0 : ℕ) (nows : List ℕ),
        ((Button.mk d (.PressedAt t0) timeout).run (nows.map fun n => (raw, n))).2
          = longPressPattern timeout t0 nows) ∧
    (∀ (raw' : Bool) (now' : ℕ), (d.poll raw').is_pressed = false →
        (Button.mk d .LongPressed timeout).poll raw' now'
          = (Button.mk (d.poll raw') .Released timeout, some .LongRelease)) := by
  constructor
  · intro t0 nows
    induction nows with
    | nil => rfl
    | cons n rest ih =>
      by_cases hlt : timeout < elapsed n t0
      · simp only [List.map_cons, Button.run, Button.poll, hd, hp, longPressPattern, hlt]
        simp [Button.run_longPressed_absorb d raw timeout hd hp rest]
      · simp only [List.map_cons, Button.run, Button.poll, hd, hp, longPressPattern, hlt]
        simp [ih]
  · intro raw' now' hrel
    simp [Button.poll, hrel]

/-- C4 witness: a debouncer saturated at `max = 1` for an active-high pin
held electrically high; from `Pressed(0)` with timeout 5, polls at ticks
3 and 10 produce no event and then exactly one `LongPress`; from
`LongPressed`, one poll with the pin low releases with one `LongRelease`. -/
theorem button_longPress_exactly_once_witness :
    ((Button.mk ⟨1, 1, true, .High⟩ (.PressedAt 0) 5).run ([3, 10].map fun n => (false, n))).2
        = [none, some .LongPress] ∧
    (Button.mk ⟨1, 1, true, .High⟩ .LongPressed 5).poll true 20
        = (Button.mk ⟨0, 1, false, .High⟩ .Released 5, some .LongRelease) := by
  have h := button_longPress_exactly_once ⟨1, 1, true, .High⟩ false 5 (by decide) (by decide)
  constructor
  · rw [h.1 0 [3, 10]]
    decide
  · have h2 := h.2 true 20 (by decide)
    rw [h2]
    decide

theorem Debouncer.poll_fix (d : Debouncer) (raw : Bool)
    (h : (raw = true ∧ d.integrator = 0 ∧ d.output = false) ∨
         (raw = false ∧ d.integrator = d.max ∧ 0 < d.max ∧ d.output = true)) :
    d.poll raw = d := by
  cases d with
  | mk i m o a =>
    rcases h with ⟨h1, h2, h3⟩ | ⟨h1, h2, h3, h4⟩ <;> subst h1 <;>
      simp_all [Debouncer.poll] <;> omega

theorem Button.poll_pin_eq (b : Button) (raw : Bool) (now : ℕ) :
    ((b.poll raw now).1).pin = b.pin.poll raw := by
  cases b with
  | mk pin st timeout =>
    cases st <;> simp only [Button.poll] <;> (repeat' split) <;> rfl

theorem Button.poll_ticks_eq (b : Button) (raw : Bool) (now : ℕ) :
    ((b.poll raw now).1).long_press_timeout_ticks = b.long_press_timeout_ticks := by
  cases b with
  | mk pin st timeout =>
    cases st <;> simp only [Button.poll] <;> (repeat' split) <;> rfl

/-- C6 counterexample: a reachable combined state in which the debounced
output is stable (integrator saturated at `max`) and the raw input never
changes again, yet a later `Button::poll` still emits an event: holding an
active-high button from `Pressed(0)` with timeout 5, the poll at tick 3
emits nothing but the poll at tick 10 emits `LongPress`, contradicting
"emits no further events". -/
theorem button_stable_counterexample :
    (⟨1, 1, true, .High⟩ : Debouncer).integrator = (⟨1, 1, true, .High⟩ : Debouncer).max ∧
    ((Button.mk ⟨1, 1, true, .High⟩ (.PressedAt 0) 5).run [(false, 3), (false, 10)]).2
      = [none, some .LongPress] := by
  decide

/-- C6 amended: once the debouncer sits at an extreme consistent with a
raw input that no longer changes (integrator 0, output inactive, raw
constantly low — or integrator saturated at a positive `max`, output
active, raw constantly high), further `Button::poll` calls never change
the debouncer (so `output` never changes); and if in addition the state
machine has settled against the debounced value (`Released` with the
signal inactive, or `LongPressed` with the signal active), no further
events are emitted and the combined state is unchanged.  The original
claim fails without the settledness condition because a held press still
emits `LongPress` from `Pressed(t0)` (see the counterexample). -/
theorem button_stable_idempotent (d : Debouncer) (raw : Bool) (timeout : ℕ) (nows : List ℕ)
    (h : (raw = true ∧ d.integrator = 0 ∧ d.output = false) ∨
         (raw = false ∧ d.integrator = d.max ∧ 0 < d.max ∧ d.output = true)) :
    (∀ s : ButtonState,
        ((Button.mk d s timeout).run (nows.map fun n => (raw, n))).1.pin = d) ∧
    (∀ s : ButtonState,
        ((s = .Released ∧ d.is_pressed = false) ∨ (s = .LongPressed ∧ d.is_pressed = true)) →
        (Button.mk d s timeout).run (nows.map fun n => (raw, n))
          = (Button.mk d s timeout, nows.map fun _ => none)) := by
  have hfix := Debouncer.poll_fix d raw h
  constructor
  · intro s
    induction nows generalizing s with
    | nil => rfl
    | cons n rest ih =>
      cases s <;> simp only [List.map_cons, Button.run, Button.poll, hfix] <;>
        (repeat' split) <;> exact ih _
  · intro s hs
    rcases hs with ⟨rfl, hpr⟩ | ⟨rfl, hpr⟩ <;>
      · induction nows with
        | nil => rfl
        | cons n rest ih =>
          simp only [List.map_cons, Button.run, Button.poll, hfix, hpr]
          simp [ih]

/-- C6 witness: an active-high debouncer resting at integrator 0 with the
pin constantly low, machine `Released`: three further polls change
nothing and emit nothing. -/
theorem button_stable_idempotent_witness :
    (Button.mk ⟨0, 2, false, .High⟩ .Released 5).run ([1, 2, 3].map fun n => (true, n))
      = (Button.mk ⟨0, 2, false, .High⟩ .Released 5, [1, 2, 3].map fun _ => none) :=
  (button_stable_idempotent ⟨0, 2, false, .High⟩ true 5 [1, 2, 3]
    (Or.inl ⟨rfl, rfl, rfl⟩)).2 .Released (Or.inl ⟨rfl, by decide⟩)

/-- C8: elapsed-time measurement is correct across wraparound of the
`u32` monotonic counter.  If a press starts at tick `t0` and the true
number of elapsed ticks is `k` (both below the counter's range), the
wrapped reading `(t0 + k) mod 2^32` yields `elapsed = k` exactly, and the
poll from `Pressed(t0)` with the signal active emits `LongPress`
precisely when `k` exceeds the timeout — never earlier, never missed,
even when `t0 + k` crosses the wraparound boundary.  (`elapsed` is
modelled from the spec's contract for the HAL time source, which is not
part of this repository's sources.) -/
theorem elapsed_wraparound_correct (t0 k : ℕ) (d : Debouncer) (raw : Bool) (timeout : ℕ)
    (ht0 : t0 < 2 ^ 32) (hk : k < 2 ^ 32)
    (hp : (d.poll raw).is_pressed = true) :
    elapsed ((t0 + k) % 2 ^ 32) t0 = k ∧
    ((Button.mk d (.PressedAt t0) timeout).poll raw ((t0 + k) % 2 ^ 32)).2
      = (if timeout < k then some .LongPress else none) := by
  have h32 : (2 : ℕ) ^ 32 = 4294967296 := by norm_num
  have he : elapsed ((t0 + k) % 2 ^ 32) t0 = k := by
    simp only [elapsed, instantModulus]
    rw [h32] at ht0 hk ⊢
    omega
  refine ⟨he, ?_⟩
  simp only [Button.poll, hp, he, not_true, ite_false]
  split <;> rfl

/-- C8 witness: a press starting 5 ticks before the counter maximum and
measured 10 true ticks later (reading tick 5 after wraparound) with
timeout 7: elapsed is exactly 10 and `LongPress` fires. -/
theorem elapsed_wraparound_witness :
    elapsed ((4294967291 + 10) % 2 ^ 32) 4294967291 = 10 ∧
    ((Button.mk ⟨1, 1, true, .High⟩ (.PressedAt 4294967291) 7).poll false
        ((4294967291 + 10) % 2 ^ 32)).2 = some .LongPress := by
  have h := elapsed_wraparound_correct 4294967291 10 ⟨1, 1, true, .High⟩ false 7
    (by norm_num) (by norm_num) (by decide)
  refine ⟨h.1, ?_⟩
  rw [h.2]
  decide

/-- C3: the code performs no rejection and no clamping at construction
time.  A debounce window of 0 ms yields `max = 0` (for any sample rate
and polarity), and a long-press timeout of 0 ms yields
`long_press_timeout_ticks = 0` (for any timer frequency), both accepted
silently — contradicting the required construction-time rejection or
clamping to at least 1. -/
theorem construction_rejects_nothing :
    (Debouncer.new .Low 0 3000).max = 0 ∧
    (Button.new (Debouncer.new .Low 30 3000) 0 72000000).long_press_timeout_ticks = 0 :=
  ⟨Debouncer_new_zero_window .Low 3000, Button_new_zero_timeout _ 72000000⟩

/-- C7 counterexample: `Button::new` computes the tick count in `f32`
arithmetic, whose 24-bit significand cannot represent every `u32`
frequency.  At `long_press_timeout_ms = 1000` and
`frequency_hz = 33554433 = 2^25 + 1` the stored field is `33554432`
(the frequency is rounded to the nearest even significand), not the
claimed integer value `1000 * 33554433 / 1000 = 33554433`. -/
theorem button_timeout_ticks_counterexample :
    (Button.new ⟨0, 0, false, .High⟩ 1000 33554433).long_press_timeout_ticks = 33554432 ∧
    (Button.new ⟨0, 0, false, .High⟩ 1000 33554433).long_press_timeout_ticks
      ≠ 1000 * 33554433 / 1000 := by
  have h := Button_new_ticks_33554433 ⟨0, 0, false, .High⟩
  refine ⟨h, ?_⟩
  rw [h]
  norm_num

/-- C7 amended: `long_press_timeout_ticks` is computed once at
construction (none of the per-poll step functions touch the `f32` model),
and it equals the integer tick count `timeout_ms * frequency_hz / 1000`
whenever the `f32` computation is exact: the timeout is a whole number of
seconds below `2^24` ms and the resulting tick count stays below the
24-bit significand bound.  In general the stored value is the correctly
rounded `f32` computation and can fall short of the integer formula (see
the counterexample). -/
theorem button_timeout_ticks_amended (pin : Debouncer) (tm freq : ℕ) (hdvd : 1000 ∣ tm)
    (htm : tm < 2 ^ 24) (hp : tm / 1000 * freq < 2 ^ 24) :
    (Button.new pin tm freq).long_press_timeout_ticks = tm * freq / 1000 :=
  Button_new_ticks_eval pin tm freq hdvd htm hp

/-- C7 witness: a 2-second timeout at 1000 Hz stores exactly 2000 ticks. -/
theorem button_timeout_ticks_amended_witness :
    (Button.new ⟨0, 0, false, .High⟩ 2000 1000).long_press_timeout_ticks = 2000 := by
  have h := button_timeout_ticks_amended ⟨0, 0, false, .High⟩ 2000 1000 (by norm_num)
    (by norm_num) (by norm_num)
  simpa using h

/-- C9 counterexample: with a degenerate configuration whose debounce
window rounds to zero samples (`max = 0`, accepted by `Debouncer::new`,
see C3), an active-low button's very first poll under a sustained
inactive (electrically high) raw input emits a spurious `Pressed` event:
the integrator is already 0, so the first poll drives `output` to
`false`, which `Active::Low` maps to pressed. -/
theorem button_initial_poll_counterexample :
    ((Button.new (Debouncer.new .Low 0 100) 1000 1000).poll (inactiveRawLow .Low) 0).2
      = some .Pressed := by
  have hd : Debouncer.new .Low 0 100
      = ⟨(Debouncer.new .Low 0 100).max, (Debouncer.new .Low 0 100).max, true, .Low⟩ := rfl
  have hmax := Debouncer_new_zero_window .Low 100
  rw [show Button.new (Debouncer.new .Low 0 100) 1000 1000
      = Button.mk (Debouncer.new .Low 0 100) .Released
          ((Button.new (Debouncer.new .Low 0 100) 1000 1000).long_press_timeout_ticks)
      from rfl]
  rw [hd, hmax]
  simp [Button.poll, Debouncer.poll, Debouncer.is_pressed, inactiveRawLow]

/-- C9 amended: immediately after construction both polarities report
not pressed (`Active::Low` starts with `integrator = max`, `output =
true`; `Active::High` with `integrator = 0`, `output = false`; both map
to `is_pressed() = false`), the machine starts in `Released`, and —
provided the configured `max` is at least 1, which the code does not
enforce (see the counterexample and C3) — the first `Button::poll` under
a sustained inactive raw input emits no event. -/
theorem button_initial_state_amended (mode : Active) (tm sf lpms freq now : ℕ)
    (hmax : 1 ≤ (Debouncer.new mode tm sf).max) :
    (Debouncer.new mode tm sf).is_pressed = false ∧
    (Button.new (Debouncer.new mode tm sf) lpms freq).button_state = .Released ∧
    ((Button.new (Debouncer.new mode tm sf) lpms freq).poll (inactiveRawLow mode) now).2
      = none := by
  cases mode with
  | Low =>
      have hd : Debouncer.new .Low tm sf
          = ⟨(Debouncer.new .Low tm sf).max, (Debouncer.new .Low tm sf).max, true, .Low⟩ := rfl
      have hne : (Debouncer.new .Low tm sf).max ≠ 0 := by omega
      refine ⟨rfl, rfl, ?_⟩
      rw [show Button.new (Debouncer.new .Low tm sf) lpms freq
          = Button.mk (Debouncer.new .Low tm sf) .Released
              ((Button.new (Debouncer.new .Low tm sf) lpms freq).long_press_timeout_ticks)
          from rfl]
      rw [hd]
      simp [Button.poll, Debouncer.poll, Debouncer.is_pressed, inactiveRawLow, hne]
  | High =>
      have hd : Debouncer.new .High tm sf
          = ⟨0, (Debouncer.new .High tm sf).max, false, .High⟩ := rfl
      refine ⟨rfl, rfl, ?_⟩
      rw [show Button.new (Debouncer.new .High tm sf) lpms freq
          = Button.mk (Debouncer.new .High tm sf) .Released
              ((Button.new (Debouncer.new .High tm sf) lpms freq).long_press_timeout_ticks)
          from rfl]
      rw [hd]
      simp [Button.poll, Debouncer.poll, Debouncer.is_pressed, inactiveRawLow]

/-- C9 witness: a 1-second window sampled at 2 Hz gives `max = 2 ≥ 1`;
the active-low button starts unpressed, `Released`, and its first poll
under a high (inactive) raw input emits nothing. -/
theorem button_initial_state_amended_witness :
    (Debouncer.new .Low 1000 2).is_pressed = false ∧
    (Button.new (Debouncer.new .Low 1000 2) 1000 1000).button_state = .Released ∧
    ((Button.new (Debouncer.new .Low 1000 2) 1000 1000).poll (inactiveRawLow .Low) 0).2
      = none := by
  apply button_initial_state_amended
  rw [Debouncer_new_max_eval .Low 1000 2 (by norm_num) (by norm_num) (by norm_num)]
  norm_num

end Panel
